import Mathlib

/-!
# Shallow embedding: berty account utilities and the berty-mini pairing driver

Embedded source:
* `go/internal/accountutils/utils.go` — device push-key file handling
  (`GetDevicePushKeyForPath`), account listing (`ListAccounts`,
  `GetAccountMetaForName`), storage-backend selection (`GetDatastoreDir`,
  `GetRootDatastoreForPath`);
* package `mini` — the stream-receive loops of `receiveContactRequest`
  and `receiveMessage`, the contact-token construction of `shareContact`
  and its decoding in `doClient2`.

Files and the SQL world are modelled explicitly as function-valued records;
machine bytes are `Nat` values below 256.  External library code that the
token round trip depends on (gogo protobuf wire format, mr-tron base58) is
modelled from its documented format, marked below.
-/

/-- Errors of the embedded code.  They stand for the wrapped `errcode` errors
of the Go sources; only the identity of each error code matters here, so the
payloads of wrapped inner errors are not tracked. -/
inductive GoErr
  | canceled
  | pushUnableToDecrypt
  | internalErr
  | cryptoKeyGeneration
  | bertyAccountDataNotFound
  | bertyAccountFSError
  | deserialization
  | dbOpen
  | dbWrite
  | storeDirEmpty
  | todoWrap
deriving DecidableEq, Repr

/-- Model of `err.Error()` on the errcode errors: the description string put
into `AccountMetadata.Error` by `ListAccounts`.  Every description is
non-empty. -/
def errString : GoErr → String
  | .canceled => "context canceled"
  | .pushUnableToDecrypt => "ErrPushUnableToDecrypt: unable to get device push key"
  | .internalErr => "ErrInternal"
  | .cryptoKeyGeneration => "ErrCryptoKeyGeneration"
  | .bertyAccountDataNotFound => "ErrBertyAccountDataNotFound"
  | .bertyAccountFSError => "ErrBertyAccountFSError"
  | .deserialization => "ErrDeserialization"
  | .dbOpen => "ErrDBOpen"
  | .dbWrite => "ErrDBWrite"
  | .storeDirEmpty => "--store.dir is empty"
  | .todoWrap => "ErrTODO"

/-- Constant block of `accountutils` (utils.go lines 28-34). -/
def InMemoryDir : String := ":memory:"

def DefaultPushKeyFilename : String := "push.key"

def AccountMetafileName : String := "account_meta"

def AccountNetConfFileName : String := "account_net_conf"

def MessengerDatabaseFilename : String := "messenger.sqlite"

/-- Modelled from the spec: `cryptoutil.KeySize` (the `cryptoutil` package is
outside the given sources).  The spec fixes the key file at `2×KeySize` bytes;
NaCl box keys as produced by `box.GenerateKey` are 32 bytes. -/
def KeySize : Nat := 32

/-- The filesystem seen by `GetDevicePushKeyForPath`: a map from file path to
contents, `none` when the file does not exist. -/
abbrev FileSys := String → Option (List Nat)

/-- `ioutil.WriteFile` (after `os.Create`): replace the contents at `p`. -/
def FileSys.write (fs : FileSys) (p : String) (c : List Nat) : FileSys :=
  fun q => if q = p then some c else fs q

/-- Outcome of `GetDevicePushKeyForPath`: a key pair, a Go error, or a Go
runtime fault from an out-of-range slice index. -/
inductive KeyResult
  | ok (pk sk : List Nat)
  | goErr (e : GoErr)
  | outOfRange
deriving DecidableEq, Repr

/-- The file contents built by the create branch (utils.go lines 48-52): a
`2*KeySize` buffer with `contents[i] = pk[i]` and `contents[i+KeySize] = sk[i]`
for `i < KeySize`. -/
def keyFileContents (pk sk : List Nat) : List Nat :=
  (List.range (2 * KeySize)).map fun i =>
    if i < KeySize then pk.getD i 0 else sk.getD (i - KeySize) 0

/-- The read loop of utils.go lines 70-73: `KeySize` bytes of `contents`
starting at `off` (`pkVal[i] = contents[i]`, `skVal[i] = contents[i+KeySize]`). -/
def readKeyHalf (contents : List Nat) (off : Nat) : List Nat :=
  (List.range KeySize).map fun i => contents.getD (off + i) 0

/-- `GetDevicePushKeyForPath` (utils.go lines 36-76).  `freshPK`/`freshSK`
stand for the `box.GenerateKey` output (always `KeySize` bytes); key
generation and `os.MkdirAll` failures are not modelled, and `os.Create`
followed by `ioutil.WriteFile` is the single `FileSys.write`.  The source has
no length check before the read loop: a file shorter than `2*KeySize` bytes
makes `contents[i]` or `contents[i+KeySize]` an out-of-range index (a Go
runtime fault, `KeyResult.outOfRange`), and a longer file is read from its
first `2*KeySize` bytes only. -/
def GetDevicePushKeyForPath (fs : FileSys) (filePath : String)
    (createIfMissing : Bool) (freshPK freshSK : List Nat) : KeyResult × FileSys :=
  match fs filePath with
  | none =>
    if createIfMissing then
      (KeyResult.ok freshPK freshSK,
        fs.write filePath (keyFileContents freshPK freshSK))
    else
      (KeyResult.goErr GoErr.pushUnableToDecrypt, fs)
  | some contents =>
    if 2 * KeySize ≤ contents.length then
      (KeyResult.ok (readKeyHalf contents 0) (readKeyHalf contents KeySize), fs)
    else
      (KeyResult.outOfRange, fs)

/-- One entry of `ioutil.ReadDir`. -/
structure DirEntry where
  name : String
  isDir : Bool
deriving DecidableEq, Repr

/-- Result of `os.Stat`. -/
inductive StatResult
  | okStat
  | notExist
  | statErr (e : GoErr)
deriving DecidableEq, Repr

/-- Result of `ioutil.ReadFile`. -/
inductive ReadFileResult
  | okRead (contents : List Nat)
  | fileNotExist
  | readErr (e : GoErr)
deriving DecidableEq, Repr

/-- The filesystem seen by `ListAccounts` / `GetAccountMetaForName`. -/
structure AcctFS where
  stat : String → StatResult
  readDir : String → Except GoErr (List DirEntry)
  readFile : String → ReadFileResult

/-- `accounttypes.AccountMetadata` restricted to the fields this layer touches
(`AccountID`, `Error`); all remaining serialized fields are opaque, kept as
`data`. -/
structure AccountMetadata where
  accountID : String := ""
  error : String := ""
  data : List Nat := []
deriving DecidableEq, Repr

/-- `GetAccountMetaForName` (utils.go lines 112-135).  `um` stands for
`proto.Unmarshal` into `AccountMetadata` (the `accounttypes` package is
outside the given sources). -/
def GetAccountMetaForName (fs : AcctFS)
    (um : List Nat → Except GoErr AccountMetadata)
    (rootDir accountID : String) : Except GoErr AccountMetadata :=
  match fs.readFile (rootDir ++ "/" ++ accountID ++ "/" ++ AccountMetafileName) with
  | .fileNotExist => Except.error GoErr.bertyAccountDataNotFound
  | .readErr _ => Except.error GoErr.bertyAccountFSError
  | .okRead metaBytes =>
    match um metaBytes with
    | Except.error _ => Except.error GoErr.deserialization
    | Except.ok meta => Except.ok { meta with accountID := accountID }

/-- What the `ListAccounts` loop appends for one directory entry
(utils.go lines 101-106): the loaded record, or on failure a record holding
only the error description and the account id. -/
def listEntryResult (fs : AcctFS) (um : List Nat → Except GoErr AccountMetadata)
    (rootDir : String) (sub : DirEntry) : AccountMetadata :=
  match GetAccountMetaForName fs um rootDir sub.name with
  | Except.error e => { accountID := sub.name, error := errString e }
  | Except.ok account => account

/-- The `for _, subitem := range subitems` loop of `ListAccounts`
(utils.go lines 96-107): non-directories are skipped with `continue`. -/
def listAccountsLoop (fs : AcctFS) (um : List Nat → Except GoErr AccountMetadata)
    (rootDir : String) : List DirEntry → List AccountMetadata
  | [] => []
  | sub :: rest =>
    if sub.isDir = false then listAccountsLoop fs um rootDir rest
    else listEntryResult fs um rootDir sub :: listAccountsLoop fs um rootDir rest

/-- `ListAccounts` (utils.go lines 78-110). -/
def ListAccounts (fs : AcctFS) (um : List Nat → Except GoErr AccountMetadata)
    (rootDir : String) : Except GoErr (List AccountMetadata) :=
  match fs.stat rootDir with
  | .notExist => Except.ok []
  | .statErr _ => Except.error GoErr.bertyAccountFSError
  | .okStat =>
    match fs.readDir rootDir with
    | Except.error _ => Except.error GoErr.bertyAccountFSError
    | Except.ok subitems => Except.ok (listAccountsLoop fs um rootDir subitems)

/-- The storage handle of `GetRootDatastoreForPath`: the transient map
datastore, the SQL-backed datastore over an opened database handle, or either
wrapped by `sync_ds.MutexWrap`. -/
inductive Datastore
  | mapDatastore
  | sqlDatastore (db : Nat)
  | mutexWrap (inner : Datastore)
deriving DecidableEq, Repr

/-- Observable side effects of the backend selector on the outside world. -/
inductive FSEffect
  | statDir (p : String)
  | mkdirAll (p : String)
  | sqlOpen (p : String)
  | execCreateTable (table : String)
deriving DecidableEq, Repr

/-- The world the backend selector runs against: directory stat/creation and
the SQL driver (`sql.Open` yields an abstract handle, `db.Exec` runs the
CREATE TABLE statement). -/
structure World where
  stat : String → StatResult
  mkdirAll : String → Except GoErr Unit
  sqlOpen : String → Except GoErr Nat
  execCreateTable : Nat → String → Except GoErr Unit

/-- `GetDatastoreDir` (utils.go lines 137-158), with the list of world
operations it performed.  `path.Join dir "account0"` is modelled as string
concatenation. -/
def GetDatastoreDir (w : World) (dir : String) :
    Except GoErr String × List FSEffect :=
  if dir = "" then (Except.error GoErr.storeDirEmpty, [])
  else if dir = InMemoryDir then (Except.ok InMemoryDir, [])
  else
    match w.stat (dir ++ "/account0") with
    | .notExist =>
      match w.mkdirAll (dir ++ "/account0") with
      | Except.error _ =>
        (Except.error GoErr.todoWrap,
          [FSEffect.statDir (dir ++ "/account0"), FSEffect.mkdirAll (dir ++ "/account0")])
      | Except.ok _ =>
        (Except.ok (dir ++ "/account0"),
          [FSEffect.statDir (dir ++ "/account0"), FSEffect.mkdirAll (dir ++ "/account0")])
    | .statErr _ =>
      (Except.error GoErr.todoWrap, [FSEffect.statDir (dir ++ "/account0")])
    | .okStat =>
      (Except.ok (dir ++ "/account0"), [FSEffect.statDir (dir ++ "/account0")])

/-- `GetRootDatastoreForPath` (utils.go lines 160-199), with the list of world
operations it performed.  Both variants pass through
`ds = sync_ds.MutexWrap(ds)` before being returned. -/
def GetRootDatastoreForPath (w : World) (dir : String) :
    Except GoErr Datastore × List FSEffect :=
  if dir = InMemoryDir then
    (Except.ok (Datastore.mutexWrap Datastore.mapDatastore), [])
  else
    match w.sqlOpen (dir ++ "/" ++ "datastore.sqlite") with
    | Except.error _ =>
      (Except.error GoErr.dbOpen, [FSEffect.sqlOpen (dir ++ "/" ++ "datastore.sqlite")])
    | Except.ok db =>
      match w.execCreateTable db "blocks" with
      | Except.error _ =>
        (Except.error GoErr.dbWrite,
          [FSEffect.sqlOpen (dir ++ "/" ++ "datastore.sqlite"),
            FSEffect.execCreateTable "blocks"])
      | Except.ok _ =>
        (Except.ok (Datastore.mutexWrap (Datastore.sqlDatastore db)),
          [FSEffect.sqlOpen (dir ++ "/" ++ "datastore.sqlite"),
            FSEffect.execCreateTable "blocks"])

/-- A metadata event as seen through `subMetadata.Recv()`: the
`Metadata.EventType` discriminator and the `Event` payload bytes. -/
structure MetadataEvent where
  eventType : Nat
  event : List Nat
deriving DecidableEq, Repr

/-- Modelled from the spec: the numeric value of the protocol service's
`EventTypeAccountContactRequestIncomingReceived` discriminator
(`protocoltypes` is outside the given sources); only (in)equality with other
event types matters. -/
def EventTypeAccountContactRequestIncomingReceived : Nat := 202

/-- `protocoltypes.AccountContactRequestReceived` restricted to the field the
driver uses. -/
structure AccountContactRequestReceived where
  contactPK : List Nat
deriving DecidableEq, Repr

/-- `protocoltypes.GroupMessageEvent` restricted to the field the driver uses. -/
structure GroupMessageEvent where
  message : List Nat
deriving DecidableEq, Repr

/-- One outcome of a `Recv()` call on a server stream: a value, a clean end of
stream (`io.EOF`), or any other error (in particular the cancellation error
`GoErr.canceled`). -/
inductive RecvResult (α : Type)
  | msg (m : α)
  | eof
  | recvErr (e : GoErr)
deriving DecidableEq, Repr

/-- `err == io.EOF` on a `Recv()` outcome. -/
def RecvResult.isEOF {α : Type} : RecvResult α → Bool
  | RecvResult.eof => true
  | _ => false

/-- Outcome of a driver receive function: `received v` for `(v, nil)`,
`notReceived` for the `(nil, nil)` "not received" return, `failed e` for
`(nil, err)`, and `blocked` when the modelled stream has no further `Recv()`
outcome (the Go loop would still be blocked in `Recv()`). -/
inductive ReceiveOutcome (α : Type)
  | received (v : α)
  | notReceived
  | failed (e : GoErr)
  | blocked
deriving DecidableEq, Repr

/-- The receive loop of `receiveContactRequest` (part_000 lines 348-368) over
the sequence of `Recv()` outcomes of the metadata subscription.  `ctxCanceled`
is the value of `subMetadata.Context().Err() != nil` (the subscription context
inherits cancellation of the pairing context); `um` stands for
`request.Unmarshal` on the event payload.  `Recv()` may in principle yield a
nil message (`msg none`), which the source skips. -/
def receiveContactRequestLoop
    (um : List Nat → Except GoErr AccountContactRequestReceived)
    (ctxCanceled : Bool) :
    List (RecvResult (Option MetadataEvent)) →
      ReceiveOutcome AccountContactRequestReceived
  | [] => ReceiveOutcome.blocked
  | r :: rest =>
    if r.isEOF || ctxCanceled then ReceiveOutcome.notReceived
    else
      match r with
      | RecvResult.eof => ReceiveOutcome.notReceived
      | RecvResult.recvErr e => ReceiveOutcome.failed e
      | RecvResult.msg none => receiveContactRequestLoop um ctxCanceled rest
      | RecvResult.msg (some metadata) =>
        if metadata.eventType ≠ EventTypeAccountContactRequestIncomingReceived then
          receiveContactRequestLoop um ctxCanceled rest
        else
          match um metadata.event with
          | Except.error e => ReceiveOutcome.failed e
          | Except.ok request => ReceiveOutcome.received request

/-- The receive loop of `receiveMessage` (part_000 lines 383-394) over the
sequence of `Recv()` outcomes of the message subscription: only `io.EOF` is
mapped to the "not received" outcome; any other error (including the
cancellation error) is returned as an error, and the first message is
returned unconditionally. -/
def receiveMessageLoop :
    List (RecvResult GroupMessageEvent) → ReceiveOutcome GroupMessageEvent
  | [] => ReceiveOutcome.blocked
  | r :: _ =>
    match r with
    | RecvResult.eof => ReceiveOutcome.notReceived
    | RecvResult.recvErr e => ReceiveOutcome.failed e
    | RecvResult.msg message => ReceiveOutcome.received message

/-- Modelled from the spec: protobuf base-128 varint encoding (gogo/protobuf
`encodeVarint`, outside the given sources): little-endian 7-bit groups, high
bit set on every byte but the last.  `encodeVarintAux` carries fuel so the
definition is structural; any fuel of at least `n` gives the encoding. -/
def encodeVarintAux : Nat → Nat → List Nat
  | 0, n => if n < 128 then [n] else []
  | fuel + 1, n => if n < 128 then [n] else (n % 128 + 128) :: encodeVarintAux fuel (n / 128)

def encodeVarint (n : Nat) : List Nat := encodeVarintAux n n

/-- Modelled from the spec: protobuf varint decoding; returns the value and
the remaining input, `none` on truncated input. -/
def decodeVarint : List Nat → Option (Nat × List Nat)
  | [] => none
  | b :: rest =>
    if b < 128 then some (b, rest)
    else
      match decodeVarint rest with
      | none => none
      | some (n, r) => some (b - 128 + 128 * n, r)

/-- Modelled from the spec: a length-delimited payload (wire type 2): its
varint length followed by that many bytes; `none` when the input is too
short. -/
def readLenDelim (input : List Nat) : Option (List Nat × List Nat) :=
  match decodeVarint input with
  | none => none
  | some (len, r) => if len ≤ r.length then some (r.take len, r.drop len) else none

/-- Modelled from the spec: skipping one unknown field of the given wire type
(gogo/protobuf `skip`): 0 varint, 1 eight bytes, 2 length-delimited, 5 four
bytes; group wire types are rejected. -/
def skipField (wireType : Nat) (input : List Nat) : Option (List Nat) :=
  if wireType = 0 then (decodeVarint input).map (fun x => x.2)
  else if wireType = 1 then
    if 8 ≤ input.length then some (input.drop 8) else none
  else if wireType = 2 then (readLenDelim input).map (fun x => x.2)
  else if wireType = 5 then
    if 4 ≤ input.length then some (input.drop 4) else none
  else none

/-- `protocoltypes.ShareableContact` restricted to its wire fields:
`pk` (field 1), `public_rendezvous_seed` (field 2), `metadata` (field 3),
each a bytes field. -/
structure ShareableContact where
  pk : List Nat := []
  publicRendezvousSeed : List Nat := []
  metadata : List Nat := []
deriving DecidableEq, Repr

/-- Modelled from the spec: the wire encoding of one bytes field
(gogo/protobuf generated Marshal): tag varint `fieldNum*8 + 2`, varint
length, payload; empty bytes fields are omitted entirely. -/
def encodeBytesField (fieldNum : Nat) (b : List Nat) : List Nat :=
  if b.length = 0 then []
  else encodeVarint (fieldNum * 8 + 2) ++ encodeVarint b.length ++ b

/-- Modelled from the spec: `proto.Marshal` on a `ShareableContact`: field 1,
then field 2, then field 3. -/
def marshalShareableContact (c : ShareableContact) : List Nat :=
  encodeBytesField 1 c.pk ++ encodeBytesField 2 c.publicRendezvousSeed ++
    encodeBytesField 3 c.metadata

/-- Modelled from the spec: the generated `Unmarshal` loop for
`ShareableContact`: read a tag varint, dispatch on the field number, insist
on wire type 2 for the three known bytes fields, skip unknown fields.  The
fuel only bounds the number of loop iterations (each iteration consumes at
least one byte, so `input.length + 1` is always enough). -/
def parseShareableContact : Nat → ShareableContact → List Nat →
    Except GoErr ShareableContact
  | _, c, [] => Except.ok c
  | 0, _, _ :: _ => Except.error GoErr.deserialization
  | fuel + 1, c, b :: input =>
    match decodeVarint (b :: input) with
    | none => Except.error GoErr.deserialization
    | some (tag, r1) =>
      if tag / 8 = 1 then
        if tag % 8 = 2 then
          match readLenDelim r1 with
          | none => Except.error GoErr.deserialization
          | some (payload, r2) =>
            parseShareableContact fuel { c with pk := payload } r2
        else Except.error GoErr.deserialization
      else if tag / 8 = 2 then
        if tag % 8 = 2 then
          match readLenDelim r1 with
          | none => Except.error GoErr.deserialization
          | some (payload, r2) =>
            parseShareableContact fuel { c with publicRendezvousSeed := payload } r2
        else Except.error GoErr.deserialization
      else if tag / 8 = 3 then
        if tag % 8 = 2 then
          match readLenDelim r1 with
          | none => Except.error GoErr.deserialization
          | some (payload, r2) =>
            parseShareableContact fuel { c with metadata := payload } r2
        else Except.error GoErr.deserialization
      else
        match skipField (tag % 8) r1 with
        | none => Except.error GoErr.deserialization
        | some r2 => parseShareableContact fuel c r2

/-- Modelled from the spec: `proto.Unmarshal` into a `ShareableContact`
(as called by `doClient2`). -/
def unmarshalShareableContact (input : List Nat) : Except GoErr ShareableContact :=
  parseShareableContact (input.length + 1) {} input

/-- The contact built and serialized by `shareContact` (part_000 lines
323-327): `PK` from the service configuration's `AccountPK`,
`PublicRendezvousSeed` from the contact request reference, metadata unset. -/
def shareContactBinary (accountPK publicRendezvousSeed : List Nat) : List Nat :=
  marshalShareableContact
    { pk := accountPK, publicRendezvousSeed := publicRendezvousSeed }

/-- Modelled from the spec: the base58 alphabet of the out-of-band token
encoding (mr-tron/base58, bitcoin alphabet). -/
def base58Alphabet : List Char :=
  ['1', '2', '3', '4', '5', '6', '7', '8', '9',
   'A', 'B', 'C', 'D', 'E', 'F', 'G', 'H', 'J', 'K', 'L', 'M', 'N',
   'P', 'Q', 'R', 'S', 'T', 'U', 'V', 'W', 'X', 'Y', 'Z',
   'a', 'b', 'c', 'd', 'e', 'f', 'g', 'h', 'i', 'j', 'k', 'm', 'n', 'o',
   'p', 'q', 'r', 's', 't', 'u', 'v', 'w', 'x', 'y', 'z']

/-- Modelled from the spec: base-`b` digits of `n`, least significant first
(fuel-structural; any fuel of at least `n` suffices when `2 ≤ b`). -/
def toDigitsLEAux (b : Nat) : Nat → Nat → List Nat
  | 0, _ => []
  | fuel + 1, n => if n = 0 then [] else n % b :: toDigitsLEAux b fuel (n / b)

def toDigitsLE (b n : Nat) : List Nat := toDigitsLEAux b n n

/-- Value of a little-endian digit list in base `b`. -/
def fromDigitsLE (b : Nat) (l : List Nat) : Nat :=
  l.foldr (fun d acc => d + b * acc) 0

/-- Modelled from the spec: mr-tron/base58 `Encode`: count the leading zero
bytes, read the whole byte string as one big-endian integer, and emit one
`'1'` per leading zero byte followed by the base-58 digits of the integer,
most significant first. -/
def base58Encode (input : List Nat) : String :=
  String.mk
    (List.replicate ((input.takeWhile (fun x => x == 0)).length) '1' ++
      ((toDigitsLE 58 (input.foldl (fun acc d => acc * 256 + d) 0)).reverse.map
        (fun d => base58Alphabet.getD d '1')))

/-- Modelled from the spec: the value of one base58 character (the decode
table of mr-tron/base58); `none` for a character outside the alphabet. -/
def base58CharVal (c : Char) : Option Nat :=
  if base58Alphabet.indexOf c < 58 then some (base58Alphabet.indexOf c) else none

/-- Values of all characters; `none` as soon as one character is invalid. -/
def base58CharVals : List Char → Option (List Nat)
  | [] => some []
  | c :: rest =>
    match base58CharVal c, base58CharVals rest with
    | some v, some vs => some (v :: vs)
    | _, _ => none

/-- Modelled from the spec: mr-tron/base58 `Decode`: reject the empty string
and invalid characters, count the leading `'1'` characters, accumulate the
big-endian base-58 value of all characters, and return that many zero bytes
followed by the big-endian bytes of the value. -/
def base58Decode (s : String) : Except GoErr (List Nat) :=
  if s.data = [] then Except.error GoErr.deserialization
  else
    match base58CharVals s.data with
    | none => Except.error GoErr.deserialization
    | some vals =>
      Except.ok
        (List.replicate ((s.data.takeWhile (fun c => c == '1')).length) 0 ++
          (toDigitsLE 256 (vals.foldl (fun acc d => acc * 58 + d) 0)).reverse)

/-- The decoding pipeline of `doClient2` (part_000 lines 244-252):
`base58.Decode` on the shared token, then `proto.Unmarshal` into a
`ShareableContact`. -/
def doClient2DecodeContact (encodedContact : String) :
    Except GoErr ShareableContact :=
  match base58Decode encodedContact with
  | Except.error e => Except.error e
  | Except.ok contactBinary => unmarshalShareableContact contactBinary

/-- Whether a `Recv()` outcome carries a message (as opposed to `io.EOF` or
another error). -/
def RecvResult.isMsg {α : Type} : RecvResult α → Bool
  | RecvResult.msg _ => true
  | _ => false

/-- Whether a metadata `Recv()` outcome is a non-nil event of kind
"incoming contact request received" (the event the loop is waiting for). -/
def isIncomingRequestEvent : RecvResult (Option MetadataEvent) → Bool
  | RecvResult.msg (some m) =>
    m.eventType == EventTypeAccountContactRequestIncomingReceived
  | _ => false

/-- Fixture: a filesystem with no files. -/
def fsNoFiles : FileSys := fun _ => none

/-- Fixture: a key file of a single byte (length 1, not `2*KeySize`). -/
def fsShortKey : FileSys := fun p => if p = "k" then some [7] else none

/-- Fixture: a key file of 65 bytes (length above `2*KeySize`). -/
def fsLongKey : FileSys := fun p => if p = "k" then some (List.replicate 65 9) else none

/-- Fixture: an account filesystem whose root directory does not exist. -/
def acctFSMissingRoot : AcctFS where
  stat := fun _ => StatResult.notExist
  readDir := fun _ => Except.ok []
  readFile := fun _ => ReadFileResult.fileNotExist

/-- Fixture: a root directory with two account subdirectories (one with a
loadable metadata file, one with a corrupt one) and one stray regular file. -/
def acctFSDemo : AcctFS where
  stat := fun _ => StatResult.okStat
  readDir := fun p =>
    if p = "root" then
      Except.ok [{ name := "alpha", isDir := true }, { name := "beta", isDir := true },
        { name := "stray.txt", isDir := false }]
    else Except.ok []
  readFile := fun p =>
    if p = "root/alpha/account_meta" then ReadFileResult.okRead [1]
    else if p = "root/beta/account_meta" then ReadFileResult.okRead [2]
    else ReadFileResult.fileNotExist

/-- Fixture: a metadata deserializer that accepts only the payload `[1]`. -/
def umDemo : List Nat → Except GoErr AccountMetadata := fun b =>
  if b = [1] then Except.ok { data := [1] } else Except.error GoErr.deserialization

/-- Fixture: a world where every operation succeeds (`sql.Open` yields
handle 0). -/
def worldOK : World where
  stat := fun _ => StatResult.okStat
  mkdirAll := fun _ => Except.ok ()
  sqlOpen := fun _ => Except.ok 0
  execCreateTable := fun _ _ => Except.ok ()

theorem listAccountsLoop_eq_filter_map (fs : AcctFS)
    (um : List Nat → Except GoErr AccountMetadata) (rootDir : String)
    (entries : List DirEntry) :
    listAccountsLoop fs um rootDir entries =
      (entries.filter fun s => s.isDir).map (listEntryResult fs um rootDir) := by
  induction entries with
  | nil => rfl
  | cons sub rest ih =>
    rw [listAccountsLoop, List.filter_cons]
    cases h : sub.isDir <;> simp [h, ih]

theorem errString_ne_empty (e : GoErr) : errString e ≠ "" := by
  cases e <;> decide

/-- C6: for every root directory path that does not exist on the filesystem,
`ListAccounts` returns an empty sequence and no error. -/
theorem c6_missing_root_empty (fs : AcctFS)
    (um : List Nat → Except GoErr AccountMetadata) (rootDir : String)
    (h : fs.stat rootDir = StatResult.notExist) :
    ListAccounts fs um rootDir = Except.ok [] := by
  simp [ListAccounts, h]

theorem c6_missing_root_empty_witness :
    acctFSMissingRoot.stat "nowhere" = StatResult.notExist
    ∧ ListAccounts acctFSMissingRoot umDemo "nowhere" = Except.ok [] :=
  ⟨rfl, c6_missing_root_empty acctFSMissingRoot umDemo "nowhere" rfl⟩

/-- C7: for every path where the key file does not exist,
`GetDevicePushKeyForPath` with `createIfMissing = false` fails (with the
code's error for an unavailable key, `ErrPushUnableToDecrypt` wrapping
"unable to get device push key") and leaves the filesystem unchanged: no
file is created. -/
theorem c7_missing_key_not_created (fs : FileSys) (p : String)
    (g1 g2 : List Nat) (hmiss : fs p = none) :
    GetDevicePushKeyForPath fs p false g1 g2 =
      (KeyResult.goErr GoErr.pushUnableToDecrypt, fs) := by
  simp [GetDevicePushKeyForPath, hmiss]

theorem c7_missing_key_not_created_witness :
    fsNoFiles "k" = none
    ∧ GetDevicePushKeyForPath fsNoFiles "k" false [] [] =
        (KeyResult.goErr GoErr.pushUnableToDecrypt, fsNoFiles) :=
  ⟨rfl, c7_missing_key_not_created fsNoFiles "k" [] [] rfl⟩

/-- C8: with the reserved in-memory sentinel, `GetDatastoreDir` returns the
sentinel unchanged and `GetRootDatastoreForPath` returns the mutex-wrapped
transient map datastore, and neither performs any operation on the world
(empty effect list), for every world. -/
theorem c8_inmemory_sentinel (w : World) :
    GetDatastoreDir w InMemoryDir = (Except.ok InMemoryDir, [])
    ∧ GetRootDatastoreForPath w InMemoryDir =
        (Except.ok (Datastore.mutexWrap Datastore.mapDatastore), []) :=
  ⟨rfl, rfl⟩

/-- C9: every successful result of `GetRootDatastoreForPath` is wrapped by
`sync_ds.MutexWrap`, whichever variant was selected. -/
theorem c9_mutex_wrapped (w : World) (dir : String) (ds : Datastore)
    (h : (GetRootDatastoreForPath w dir).fst = Except.ok ds) :
    ∃ inner : Datastore, ds = Datastore.mutexWrap inner := by
  unfold GetRootDatastoreForPath at h
  by_cases hd : dir = InMemoryDir
  · rw [if_pos hd] at h
    simp at h
    exact ⟨Datastore.mapDatastore, h.symm⟩
  · rw [if_neg hd] at h
    split at h
    · simp at h
    · split at h
      · simp at h
      · simp at h
        exact ⟨_, h.symm⟩

theorem c9_mutex_wrapped_witness :
    (GetRootDatastoreForPath worldOK "d").fst =
      Except.ok (Datastore.mutexWrap (Datastore.sqlDatastore 0))
    ∧ ∃ inner : Datastore,
        Datastore.mutexWrap (Datastore.sqlDatastore 0) = Datastore.mutexWrap inner :=
  ⟨rfl, c9_mutex_wrapped worldOK "d" (Datastore.mutexWrap (Datastore.sqlDatastore 0)) rfl⟩

/-- C5: when the root directory exists and is readable, `ListAccounts` does
not abort on subdirectories whose metadata fails to load: it returns exactly
one record per immediate subdirectory, the loaded record for the successful
ones and, for each failing one, a record whose error field holds the failure
description (always non-empty) and whose accountID is the subdirectory
name. -/
theorem c5_failed_metadata_error_records (fs : AcctFS)
    (um : List Nat → Except GoErr AccountMetadata) (rootDir : String)
    (entries : List DirEntry)
    (hstat : fs.stat rootDir = StatResult.okStat)
    (hdir : fs.readDir rootDir = Except.ok entries) :
    ListAccounts fs um rootDir =
      Except.ok ((entries.filter fun s => s.isDir).map (listEntryResult fs um rootDir))
    ∧ ∀ sub : DirEntry, ∀ e : GoErr,
        GetAccountMetaForName fs um rootDir sub.name = Except.error e →
        listEntryResult fs um rootDir sub =
            { accountID := sub.name, error := errString e, data := [] }
          ∧ errString e ≠ "" := by
  constructor
  · simp [ListAccounts, hstat, hdir, listAccountsLoop_eq_filter_map]
  · intro sub e h
    exact ⟨by simp [listEntryResult, h], errString_ne_empty e⟩

theorem c5_failed_metadata_error_records_witness :
    acctFSDemo.stat "root" = StatResult.okStat
    ∧ acctFSDemo.readDir "root" =
        Except.ok [{ name := "alpha", isDir := true }, { name := "beta", isDir := true },
          { name := "stray.txt", isDir := false }]
    ∧ ListAccounts acctFSDemo umDemo "root" =
        Except.ok
          ((([{ name := "alpha", isDir := true }, { name := "beta", isDir := true },
              { name := "stray.txt", isDir := false }].filter fun s => s.isDir).map
            (listEntryResult acctFSDemo umDemo "root"))) :=
  ⟨rfl, rfl,
    (c5_failed_metadata_error_records acctFSDemo umDemo "root" _ rfl rfl).1⟩

/-- C10: the `ListAccounts` loop produces no record for a non-directory
entry: with such an entry anywhere in the directory listing, the result is
the same as without it. -/
theorem c10_nondir_skipped (fs : AcctFS)
    (um : List Nat → Except GoErr AccountMetadata) (rootDir : String)
    (pre post : List DirEntry) (entry : DirEntry)
    (hnd : entry.isDir = false)
    (hstat : fs.stat rootDir = StatResult.okStat)
    (hdir : fs.readDir rootDir = Except.ok (pre ++ entry :: post)) :
    ListAccounts fs um rootDir =
      Except.ok (listAccountsLoop fs um rootDir (pre ++ post)) := by
  simp [ListAccounts, hstat, hdir, listAccountsLoop_eq_filter_map,
    List.filter_append, List.filter_cons, hnd]

theorem c10_nondir_skipped_witness :
    ({ name := "stray.txt", isDir := false } : DirEntry).isDir = false
    ∧ acctFSDemo.stat "root" = StatResult.okStat
    ∧ acctFSDemo.readDir "root" =
        Except.ok ([{ name := "alpha", isDir := true }, { name := "beta", isDir := true }] ++
          { name := "stray.txt", isDir := false } :: [])
    ∧ ListAccounts acctFSDemo umDemo "root" =
        Except.ok (listAccountsLoop acctFSDemo umDemo "root"
          ([{ name := "alpha", isDir := true }, { name := "beta", isDir := true }] ++ [])) :=
  ⟨rfl, rfl, rfl,
    c10_nondir_skipped acctFSDemo umDemo "root"
      [{ name := "alpha", isDir := true }, { name := "beta", isDir := true }] []
      { name := "stray.txt", isDir := false } rfl rfl rfl⟩

/-- C1 counterexample: when the pairing context (hence the subscription
context) is cancelled, the `receiveContactRequest` receive loop returns the
non-error "not received" outcome `(nil, nil)` — the same outcome as a clean
end of stream — even though `Recv()` reported the cancellation error; it is
not an error outcome, contradicting the claim that cancellation yields an
error distinguishable from the "not received" outcome for every receive of
the driver. -/
theorem c1_cancellation_counterexample :
    receiveContactRequestLoop (fun _ => Except.error GoErr.deserialization) true
        [RecvResult.recvErr GoErr.canceled] = ReceiveOutcome.notReceived
    ∧ (ReceiveOutcome.notReceived : ReceiveOutcome AccountContactRequestReceived) ≠
        ReceiveOutcome.failed GoErr.canceled := by
  constructor
  · rfl
  · decide

/-- C1 amended: a clean end of stream with no matching event yields the
non-error "not received" outcome in both receive loops; cancellation
surfaces as an error outcome from `receiveMessage`'s loop (any non-EOF
`Recv()` error is returned), but in `receiveContactRequest`'s loop a
cancelled subscription context yields the same "not received" outcome as end
of stream, whatever `Recv()` returned. -/
theorem c1_stream_outcomes
    (um : List Nat → Except GoErr AccountContactRequestReceived)
    (events : List (RecvResult (Option MetadataEvent)))
    (hmsgs : ∀ r ∈ events, r.isMsg = true)
    (hquiet : ∀ r ∈ events, isIncomingRequestEvent r = false)
    (e : GoErr) (tail1 tail2 : List (RecvResult GroupMessageEvent))
    (r0 : RecvResult (Option MetadataEvent))
    (rest0 : List (RecvResult (Option MetadataEvent))) :
    receiveContactRequestLoop um false (events ++ [RecvResult.eof]) =
        ReceiveOutcome.notReceived
    ∧ receiveMessageLoop (RecvResult.eof :: tail1) = ReceiveOutcome.notReceived
    ∧ receiveMessageLoop (RecvResult.recvErr e :: tail2) = ReceiveOutcome.failed e
    ∧ receiveContactRequestLoop um true (r0 :: rest0) = ReceiveOutcome.notReceived := by
  refine ⟨?_, rfl, rfl, ?_⟩
  · induction events with
    | nil => rfl
    | cons r rest ih =>
      have hm := hmsgs r (List.mem_cons_self r rest)
      have hq := hquiet r (List.mem_cons_self r rest)
      cases r with
      | eof => simp [RecvResult.isMsg] at hm
      | recvErr e2 => simp [RecvResult.isMsg] at hm
      | msg o =>
        cases o with
        | none =>
          rw [List.cons_append, receiveContactRequestLoop]
          exact ih (fun r hr => hmsgs r (List.mem_cons_of_mem _ hr))
            (fun r hr => hquiet r (List.mem_cons_of_mem _ hr))
        | some m =>
          rw [List.cons_append, receiveContactRequestLoop]
          simp only [RecvResult.isEOF, Bool.or_false, Bool.false_eq_true, if_false]
          have hne : m.eventType ≠ EventTypeAccountContactRequestIncomingReceived := by
            simpa [isIncomingRequestEvent] using hq
          simp only [hne, ne_eq, not_false_eq_true, if_true]
          exact ih (fun r hr => hmsgs r (List.mem_cons_of_mem _ hr))
            (fun r hr => hquiet r (List.mem_cons_of_mem _ hr))
  · cases r0 <;> simp [receiveContactRequestLoop, RecvResult.isEOF]

theorem c1_stream_outcomes_witness :
    (∀ r ∈ [RecvResult.msg (some ({ eventType := 0, event := [] } : MetadataEvent))],
      RecvResult.isMsg r = true)
    ∧ (∀ r ∈ [RecvResult.msg (some ({ eventType := 0, event := [] } : MetadataEvent))],
        isIncomingRequestEvent r = false)
    ∧ receiveContactRequestLoop (fun _ => Except.error GoErr.deserialization) false
        ([RecvResult.msg (some { eventType := 0, event := [] })] ++ [RecvResult.eof]) =
        ReceiveOutcome.notReceived
    ∧ receiveMessageLoop [RecvResult.eof] = ReceiveOutcome.notReceived
    ∧ receiveMessageLoop [RecvResult.recvErr GoErr.canceled] =
        ReceiveOutcome.failed GoErr.canceled
    ∧ receiveContactRequestLoop (fun _ => Except.error GoErr.deserialization) true
        [RecvResult.recvErr GoErr.canceled] = ReceiveOutcome.notReceived := by
  have h := c1_stream_outcomes (fun _ => Except.error GoErr.deserialization)
    [RecvResult.msg (some { eventType := 0, event := [] })]
    (by decide) (by decide) GoErr.canceled [] []
    (RecvResult.recvErr GoErr.canceled) []
  exact ⟨by decide, by decide, h.1, h.2.1, h.2.2.1, h.2.2.2⟩

/-- C2: the source has no length check between reading the key file and the
split loop.  Evaluating the embedded code: a key file of one byte drives the
read loop out of range (a Go runtime fault, not a corrupt-key-file error),
and a 65-byte key file is accepted silently, returning the first 2×KeySize
bytes as the pair with a nil error. -/
theorem c2_missing_length_check :
    (GetDevicePushKeyForPath fsShortKey "k" true (List.replicate 32 1)
        (List.replicate 32 2)).fst = KeyResult.outOfRange
    ∧ (GetDevicePushKeyForPath fsLongKey "k" false [] []).fst =
        KeyResult.ok (List.replicate 32 9) (List.replicate 32 9) := by
  constructor
  · rfl
  · decide

theorem keyFileContents_append (pk sk : List Nat) (hpk : pk.length = KeySize)
    (hsk : sk.length = KeySize) : keyFileContents pk sk = pk ++ sk := by
  apply List.ext_getElem
  · simp only [keyFileContents, List.length_map, List.length_range, List.length_append,
      hpk, hsk, KeySize]
  · intro i h1 h2
    have hi : i < 2 * KeySize := by simpa [keyFileContents] using h1
    simp only [keyFileContents, List.getElem_map, List.getElem_range]
    by_cases hlt : i < KeySize
    · have hpkl : i < pk.length := by omega
      rw [if_pos hlt, List.getElem_append_left hpkl]
      exact List.getD_eq_getElem pk 0 hpkl
    · have hpkl : pk.length ≤ i := by omega
      have hskl : i - pk.length < sk.length := by
        simp only [List.length_append] at h2
        omega
      rw [if_neg hlt, List.getElem_append_right hpkl, ← hpk]
      exact List.getD_eq_getElem sk 0 hskl

theorem readKeyHalf_append_left (pk sk : List Nat) (hpk : pk.length = KeySize) :
    readKeyHalf (pk ++ sk) 0 = pk := by
  apply List.ext_getElem
  · simp [readKeyHalf, hpk]
  · intro i h1 h2
    have hpkl : i < pk.length := h2
    simp only [readKeyHalf, List.getElem_map, List.getElem_range, Nat.zero_add]
    rw [List.getD_append pk sk 0 i hpkl]
    exact List.getD_eq_getElem pk 0 hpkl

theorem readKeyHalf_append_right (pk sk : List Nat) (hpk : pk.length = KeySize)
    (hsk : sk.length = KeySize) : readKeyHalf (pk ++ sk) KeySize = sk := by
  apply List.ext_getElem
  · simp [readKeyHalf, hsk]
  · intro i h1 h2
    have hskl : i < sk.length := h2
    simp only [readKeyHalf, List.getElem_map, List.getElem_range]
    rw [List.getD_append_right pk sk 0 (KeySize + i) (by omega), hpk,
      Nat.add_sub_cancel_left]
    exact List.getD_eq_getElem sk 0 hskl

theorem readKeyPair_of_file (fs : FileSys) (p : String) (pk sk g1 g2 : List Nat)
    (cIM : Bool) (hfile : fs p = some (pk ++ sk)) (hpk : pk.length = KeySize)
    (hsk : sk.length = KeySize) :
    GetDevicePushKeyForPath fs p cIM g1 g2 = (KeyResult.ok pk sk, fs) := by
  have hlen : 2 * KeySize ≤ pk.length + sk.length := by
    rw [hpk, hsk]
    omega
  simp [GetDevicePushKeyForPath, hfile, List.length_append, hlen,
    readKeyHalf_append_left pk sk hpk, readKeyHalf_append_right pk sk hpk hsk]

/-- C4: on a path with no key file, `GetDevicePushKeyForPath` with
`createIfMissing = true` returns the freshly generated pair, writes a file of
exactly `2×KeySize` bytes laid out as public key followed by private key, and
a second call on the same path with `createIfMissing = false` returns the
identical pair. -/
theorem c4_create_then_reread (fs : FileSys) (p : String)
    (freshPK freshSK pk2 sk2 : List Nat) (hmiss : fs p = none)
    (hpk : freshPK.length = KeySize) (hsk : freshSK.length = KeySize) :
    (GetDevicePushKeyForPath fs p true freshPK freshSK).fst =
        KeyResult.ok freshPK freshSK
    ∧ (GetDevicePushKeyForPath fs p true freshPK freshSK).snd p =
        some (freshPK ++ freshSK)
    ∧ (freshPK ++ freshSK).length = 2 * KeySize
    ∧ (GetDevicePushKeyForPath
          ((GetDevicePushKeyForPath fs p true freshPK freshSK).snd) p false
          pk2 sk2).fst = KeyResult.ok freshPK freshSK := by
  have hkc : keyFileContents freshPK freshSK = freshPK ++ freshSK :=
    keyFileContents_append freshPK freshSK hpk hsk
  have hwrite : (GetDevicePushKeyForPath fs p true freshPK freshSK).snd p =
      some (freshPK ++ freshSK) := by
    simp [GetDevicePushKeyForPath, hmiss, FileSys.write, hkc]
  have hlen : (freshPK ++ freshSK).length = 2 * KeySize := by
    simp [hpk, hsk]
    omega
  refine ⟨by simp [GetDevicePushKeyForPath, hmiss], hwrite, hlen, ?_⟩
  rw [readKeyPair_of_file ((GetDevicePushKeyForPath fs p true freshPK freshSK).snd)
    p freshPK freshSK pk2 sk2 false hwrite hpk hsk]

theorem c4_create_then_reread_witness :
    fsNoFiles "k" = none
    ∧ (List.replicate 32 1 : List Nat).length = KeySize
    ∧ (List.replicate 32 2 : List Nat).length = KeySize
    ∧ (GetDevicePushKeyForPath fsNoFiles "k" true (List.replicate 32 1)
          (List.replicate 32 2)).fst =
        KeyResult.ok (List.replicate 32 1) (List.replicate 32 2)
    ∧ (GetDevicePushKeyForPath fsNoFiles "k" true (List.replicate 32 1)
          (List.replicate 32 2)).snd "k" =
        some (List.replicate 32 1 ++ List.replicate 32 2)
    ∧ (List.replicate 32 1 ++ List.replicate 32 2 : List Nat).length = 2 * KeySize
    ∧ (GetDevicePushKeyForPath
          ((GetDevicePushKeyForPath fsNoFiles "k" true (List.replicate 32 1)
            (List.replicate 32 2)).snd) "k" false [] []).fst =
        KeyResult.ok (List.replicate 32 1) (List.replicate 32 2) := by
  have h := c4_create_then_reread fsNoFiles "k" (List.replicate 32 1)
    (List.replicate 32 2) [] [] rfl (by decide) (by decide)
  exact ⟨rfl, by decide, by decide, h.1, h.2.1, h.2.2.1, h.2.2.2⟩

theorem encodeVarintAux_fuel (n : Nat) : ∀ fuel fuel' : Nat, n ≤ fuel → n ≤ fuel' →
    encodeVarintAux fuel n = encodeVarintAux fuel' n := by
  induction n using Nat.strong_induction_on with
  | _ n ih =>
    intro fuel fuel' hf hf'
    by_cases h : n < 128
    · cases fuel <;> cases fuel' <;> simp [encodeVarintAux, h]
    · cases fuel with
      | zero => omega
      | succ f =>
        cases fuel' with
        | zero => omega
        | succ f' =>
          have hdiv : n / 128 < n := Nat.div_lt_self (by omega) (by omega)
          simp only [encodeVarintAux, if_neg h]
          rw [ih (n / 128) hdiv f f' (by omega) (by omega)]

theorem encodeVarint_eq (n : Nat) :
    encodeVarint n =
      if n < 128 then [n] else (n % 128 + 128) :: encodeVarint (n / 128) := by
  by_cases h : n < 128
  · cases n <;> simp [encodeVarint, encodeVarintAux, h]
  · cases n with
    | zero => omega
    | succ m =>
      have hdiv : (m + 1) / 128 ≤ m := by
        have := Nat.div_lt_self (Nat.succ_pos m) (by omega : 1 < 128)
        omega
      rw [if_neg h]
      show encodeVarintAux (m + 1) (m + 1) = _
      simp only [encodeVarintAux, if_neg h]
      rw [encodeVarintAux_fuel ((m + 1) / 128) m ((m + 1) / 128) hdiv le_rfl]
      rfl

theorem decodeVarint_encodeVarint (n : Nat) (rest : List Nat) :
    decodeVarint (encodeVarint n ++ rest) = some (n, rest) := by
  induction n using Nat.strong_induction_on with
  | _ n ih =>
    rw [encodeVarint_eq]
    by_cases h : n < 128
    · simp [h, decodeVarint]
    · have hdiv : n / 128 < n := Nat.div_lt_self (by omega) (by omega)
      have hge : ¬ (n % 128 + 128 < 128) := by omega
      simp only [if_neg h, List.cons_append, decodeVarint, if_neg hge,
        ih (n / 128) hdiv]
      have heq : n % 128 + 128 - 128 + 128 * (n / 128) = n := by omega
      rw [heq]

theorem encodeVarint_ne_nil (n : Nat) : encodeVarint n ≠ [] := by
  rw [encodeVarint_eq]
  by_cases h : n < 128 <;> simp [h]

theorem mem_encodeVarint_lt (n : Nat) : ∀ x ∈ encodeVarint n, x < 256 := by
  induction n using Nat.strong_induction_on with
  | _ n ih =>
    intro x hx
    rw [encodeVarint_eq] at hx
    by_cases h : n < 128
    · rw [if_pos h] at hx
      simp at hx
      omega
    · have hdiv : n / 128 < n := Nat.div_lt_self (by omega) (by omega)
      rw [if_neg h] at hx
      rcases List.mem_cons.mp hx with hx | hx
      · omega
      · exact ih (n / 128) hdiv x hx

theorem readLenDelim_encode (b rest : List Nat) :
    readLenDelim (encodeVarint b.length ++ (b ++ rest)) = some (b, rest) := by
  unfold readLenDelim
  rw [decodeVarint_encodeVarint]
  simp [List.take_left, List.drop_left]

theorem parseShareableContact_nil (fuel : Nat) (c : ShareableContact) :
    parseShareableContact fuel c [] = Except.ok c := by
  cases fuel <;> rfl

theorem parseShareableContact_field1 (fuel : Nat) (c : ShareableContact)
    (b rest : List Nat) (hb : b ≠ []) :
    parseShareableContact (fuel + 1) c (encodeBytesField 1 b ++ rest) =
      parseShareableContact fuel { c with pk := b } rest := by
  have hlen : ¬ b.length = 0 := by simpa using hb
  rw [encodeBytesField, if_neg hlen]
  have h10 : encodeVarint (1 * 8 + 2) = [10] := rfl
  rw [h10]
  simp only [List.append_assoc, List.cons_append, List.nil_append]
  have hdec : decodeVarint (10 :: (encodeVarint b.length ++ (b ++ rest))) =
      some (10, encodeVarint b.length ++ (b ++ rest)) := by
    simp [decodeVarint]
  rw [parseShareableContact]
  simp [hdec, readLenDelim_encode]

theorem parseShareableContact_field2 (fuel : Nat) (c : ShareableContact)
    (b rest : List Nat) (hb : b ≠ []) :
    parseShareableContact (fuel + 1) c (encodeBytesField 2 b ++ rest) =
      parseShareableContact fuel { c with publicRendezvousSeed := b } rest := by
  have hlen : ¬ b.length = 0 := by simpa using hb
  rw [encodeBytesField, if_neg hlen]
  have h18 : encodeVarint (2 * 8 + 2) = [18] := rfl
  rw [h18]
  simp only [List.append_assoc, List.cons_append, List.nil_append]
  have hdec : decodeVarint (18 :: (encodeVarint b.length ++ (b ++ rest))) =
      some (18, encodeVarint b.length ++ (b ++ rest)) := by
    simp [decodeVarint]
  rw [parseShareableContact]
  simp [hdec, readLenDelim_encode]

theorem encodeBytesField_ne_nil (f : Nat) (b : List Nat) (hb : b ≠ []) :
    encodeBytesField f b ≠ [] := by
  have hlen : ¬ b.length = 0 := by simpa using hb
  rw [encodeBytesField, if_neg hlen]
  simp [encodeVarint_ne_nil]

theorem encodeBytesField_nil (f : Nat) : encodeBytesField f [] = [] := by
  simp [encodeBytesField]

theorem marshal_pk_seed (pk seed : List Nat) :
    marshalShareableContact { pk := pk, publicRendezvousSeed := seed } =
      encodeBytesField 1 pk ++ encodeBytesField 2 seed := by
  show encodeBytesField 1 pk ++ encodeBytesField 2 seed ++ encodeBytesField 3 [] = _
  rw [encodeBytesField_nil, List.append_nil]

theorem parse_marshal_any_fuel (pk seed : List Nat) (hpk : pk ≠ []) (k : Nat) :
    parseShareableContact (k + 2) {}
        (marshalShareableContact { pk := pk, publicRendezvousSeed := seed }) =
      Except.ok { pk := pk, publicRendezvousSeed := seed } := by
  rw [marshal_pk_seed]
  by_cases hs : seed = []
  · subst hs
    rw [encodeBytesField_nil, List.append_nil,
      show (encodeBytesField 1 pk : List Nat) = encodeBytesField 1 pk ++ [] by simp,
      show k + 2 = (k + 1) + 1 from rfl,
      parseShareableContact_field1 (k + 1) {} pk [] hpk]
    exact parseShareableContact_nil _ _
  · rw [show k + 2 = (k + 1) + 1 from rfl,
      parseShareableContact_field1 (k + 1) {} pk (encodeBytesField 2 seed) hpk,
      show (encodeBytesField 2 seed : List Nat) =
        encodeBytesField 2 seed ++ [] by simp,
      parseShareableContact_field2 k _ seed [] hs]
    exact parseShareableContact_nil _ _

theorem unmarshal_marshal (pk seed : List Nat) (hpk : pk ≠ []) :
    unmarshalShareableContact
        (marshalShareableContact { pk := pk, publicRendezvousSeed := seed }) =
      Except.ok { pk := pk, publicRendezvousSeed := seed } := by
  have hm := marshal_pk_seed pk seed
  have hne : encodeBytesField 1 pk ++ encodeBytesField 2 seed ≠ [] := by
    intro h
    exact encodeBytesField_ne_nil 1 pk hpk (List.append_eq_nil.mp h).1
  have hlen : 1 ≤ (encodeBytesField 1 pk ++ encodeBytesField 2 seed).length :=
    List.length_pos.mpr hne
  rw [unmarshalShareableContact, hm,
    show (encodeBytesField 1 pk ++ encodeBytesField 2 seed).length + 1 =
      ((encodeBytesField 1 pk ++ encodeBytesField 2 seed).length - 1) + 2 by omega]
  have h := parse_marshal_any_fuel pk seed hpk
    ((encodeBytesField 1 pk ++ encodeBytesField 2 seed).length - 1)
  rw [marshal_pk_seed] at h
  exact h

theorem toDigitsLEAux_fuel (b : Nat) (hb : 2 ≤ b) (n : Nat) :
    ∀ fuel fuel' : Nat, n ≤ fuel → n ≤ fuel' →
    toDigitsLEAux b fuel n = toDigitsLEAux b fuel' n := by
  induction n using Nat.strong_induction_on with
  | _ n ih =>
    intro fuel fuel' hf hf'
    by_cases h : n = 0
    · subst h
      cases fuel <;> cases fuel' <;> simp [toDigitsLEAux]
    · cases fuel with
      | zero => omega
      | succ f =>
        cases fuel' with
        | zero => omega
        | succ f' =>
          have hdiv : n / b < n := Nat.div_lt_self (by omega) (by omega)
          simp only [toDigitsLEAux, if_neg h]
          rw [ih (n / b) hdiv f f' (by omega) (by omega)]

theorem toDigitsLE_eq (b : Nat) (hb : 2 ≤ b) (n : Nat) :
    toDigitsLE b n = if n = 0 then [] else n % b :: toDigitsLE b (n / b) := by
  by_cases h : n = 0
  · subst h
    simp [toDigitsLE, toDigitsLEAux]
  · cases n with
    | zero => omega
    | succ m =>
      have hdiv : (m + 1) / b ≤ m := by
        have := Nat.div_lt_self (show 0 < m + 1 by omega) (show 1 < b by omega)
        omega
      rw [if_neg h]
      show toDigitsLEAux b (m + 1) (m + 1) = _
      simp only [toDigitsLEAux, if_neg h]
      rw [toDigitsLEAux_fuel b hb ((m + 1) / b) m ((m + 1) / b) hdiv le_rfl]
      rfl

theorem fromDigits_toDigits (b : Nat) (hb : 2 ≤ b) (n : Nat) :
    fromDigitsLE b (toDigitsLE b n) = n := by
  induction n using Nat.strong_induction_on with
  | _ n ih =>
    rw [toDigitsLE_eq b hb]
    by_cases h : n = 0
    · subst h
      rfl
    · have hdiv : n / b < n := Nat.div_lt_self (by omega) (by omega)
      rw [if_neg h]
      have hrec := ih (n / b) hdiv
      simp only [fromDigitsLE, List.foldr_cons] at hrec ⊢
      rw [hrec]
      exact Nat.mod_add_div n b

theorem toDigits_mem_lt (b : Nat) (hb : 2 ≤ b) (n : Nat) :
    ∀ x ∈ toDigitsLE b n, x < b := by
  induction n using Nat.strong_induction_on with
  | _ n ih =>
    intro x hx
    rw [toDigitsLE_eq b hb] at hx
    by_cases h : n = 0
    · simp [h] at hx
    · rw [if_neg h] at hx
      have hdiv : n / b < n := Nat.div_lt_self (by omega) (by omega)
      rcases List.mem_cons.mp hx with rfl | hx
      · exact Nat.mod_lt n (by omega)
      · exact ih (n / b) hdiv x hx

theorem toDigits_eq_nil (b : Nat) (hb : 2 ≤ b) (n : Nat) :
    toDigitsLE b n = [] ↔ n = 0 := by
  rw [toDigitsLE_eq b hb]
  by_cases h : n = 0 <;> simp [h]

theorem toDigits_getLast_ne_zero (b : Nat) (hb : 2 ≤ b) (n : Nat) :
    (toDigitsLE b n).getLast? ≠ some 0 := by
  induction n using Nat.strong_induction_on with
  | _ n ih =>
    rw [toDigitsLE_eq b hb]
    by_cases h : n = 0
    · simp [h]
    · rw [if_neg h]
      have hdiv : n / b < n := Nat.div_lt_self (by omega) (by omega)
      rcases hl : toDigitsLE b (n / b) with _ | ⟨d, t⟩
      · have hnb : n / b = 0 := (toDigits_eq_nil b hb _).mp hl
        have hlt : n < b := (Nat.div_eq_zero_iff (by omega : 0 < b)).mp hnb
        rw [Nat.mod_eq_of_lt hlt]
        simp [h]
      · rw [show ((n % b :: d :: t).getLast? = (d :: t).getLast?) from rfl, ← hl]
        exact ih (n / b) hdiv

theorem fromDigits_ne_zero (b : Nat) (hb : 1 ≤ b) (l : List Nat) (hl : l ≠ [])
    (hlast : l.getLast? ≠ some 0) : fromDigitsLE b l ≠ 0 := by
  induction l with
  | nil => exact absurd rfl hl
  | cons d t ih =>
    cases t with
    | nil =>
      have hd0 : d ≠ 0 := by simpa using hlast
      simp [fromDigitsLE, hd0]
    | cons d2 t2 =>
      have hft : fromDigitsLE b (d2 :: t2) ≠ 0 :=
        ih (by simp) (by rwa [show ((d :: d2 :: t2).getLast? = (d2 :: t2).getLast?) from rfl] at hlast)
      intro hc
      apply hft
      have hc2 : d + b * fromDigitsLE b (d2 :: t2) = 0 := hc
      rcases Nat.mul_eq_zero.mp (Nat.eq_zero_of_add_eq_zero_left hc2) with h | h
      · omega
      · exact h

theorem toDigits_fromDigits (b : Nat) (hb : 2 ≤ b) (l : List Nat)
    (hmem : ∀ x ∈ l, x < b) (hlast : l.getLast? ≠ some 0) :
    toDigitsLE b (fromDigitsLE b l) = l := by
  induction l with
  | nil => rfl
  | cons d t ih =>
    have hd : d < b := hmem d (List.mem_cons_self d t)
    cases t with
    | nil =>
      have hd0 : d ≠ 0 := by simpa using hlast
      have hfrom : fromDigitsLE b [d] = d := by simp [fromDigitsLE]
      rw [hfrom, toDigitsLE_eq b hb, if_neg hd0, Nat.mod_eq_of_lt hd,
        Nat.div_eq_of_lt hd]
      rfl
    | cons d2 t2 =>
      have htail : ((d :: d2 :: t2).getLast? = (d2 :: t2).getLast?) := rfl
      have hft : fromDigitsLE b (d2 :: t2) ≠ 0 :=
        fromDigits_ne_zero b (by omega) (d2 :: t2) (by simp)
          (by rwa [htail] at hlast)
      have hrec : toDigitsLE b (fromDigitsLE b (d2 :: t2)) = d2 :: t2 :=
        ih (fun x hx => hmem x (List.mem_cons_of_mem d hx))
          (by rwa [htail] at hlast)
      have hval : fromDigitsLE b (d :: d2 :: t2) =
          d + b * fromDigitsLE b (d2 :: t2) := rfl
      have hne : d + b * fromDigitsLE b (d2 :: t2) ≠ 0 := by
        intro hc
        apply hft
        rcases Nat.mul_eq_zero.mp (Nat.eq_zero_of_add_eq_zero_left hc) with h | h
        · omega
        · exact h
      rw [hval, toDigitsLE_eq b hb, if_neg hne, Nat.add_mul_mod_self_left,
        Nat.mod_eq_of_lt hd, Nat.add_mul_div_left d _ (by omega : 0 < b),
        Nat.div_eq_of_lt hd, Nat.zero_add, hrec]

theorem fromDigits_append_single (b : Nat) (m : List Nat) (d : Nat) :
    fromDigitsLE b (m ++ [d]) = fromDigitsLE b m + d * b ^ m.length := by
  induction m with
  | nil => simp [fromDigitsLE]
  | cons x t ih =>
    simp only [List.cons_append, fromDigitsLE, List.foldr_cons] at ih ⊢
    rw [ih]
    simp only [List.length_cons, pow_succ]
    ring

theorem foldl_mul_add (b : Nat) (l : List Nat) (a : Nat) :
    l.foldl (fun acc d => acc * b + d) a =
      a * b ^ l.length + fromDigitsLE b l.reverse := by
  induction l generalizing a with
  | nil => simp [fromDigitsLE]
  | cons d t ih =>
    simp only [List.foldl_cons, List.length_cons, List.reverse_cons]
    rw [ih (a * b + d), fromDigits_append_single, List.length_reverse]
    ring

theorem takeWhile_zero_replicate (l : List Nat) :
    l.takeWhile (fun x => x == 0) =
      List.replicate (l.takeWhile (fun x => x == 0)).length 0 := by
  apply List.eq_replicate_of_mem
  intro x hx
  have := List.mem_takeWhile_imp hx
  simpa using this

theorem head?_dropWhile_ne_zero (l : List Nat) :
    ∀ x, (l.dropWhile (fun y => y == 0)).head? = some x → x ≠ 0 := by
  induction l with
  | nil => intro x hx; simp at hx
  | cons d t ih =>
    intro x hx
    rw [List.dropWhile_cons] at hx
    by_cases h : d = 0
    · simp [h] at hx
      exact ih x hx
    · simp [h] at hx
      omega

theorem takeWhile_replicate_append {α : Type} (p : α → Bool) (z : Nat)
    (a c : α) (t : List α) (ha : p a = true) (hc : p c = false) :
    ((List.replicate z a ++ c :: t).takeWhile p) = List.replicate z a := by
  induction z with
  | zero => simp [List.takeWhile_cons, hc]
  | succ n ih => simp [List.replicate_succ, List.takeWhile_cons, ha, ih]

theorem takeWhile_replicate_self {α : Type} (p : α → Bool) (z : Nat) (a : α)
    (ha : p a = true) :
    ((List.replicate z a).takeWhile p) = List.replicate z a := by
  induction z with
  | zero => rfl
  | succ n ih => simp [List.replicate_succ, List.takeWhile_cons, ha, ih]

theorem foldl_replicate_zero (b z : Nat) (l : List Nat) :
    ((List.replicate z 0 ++ l).foldl (fun acc d => acc * b + d) 0) =
      l.foldl (fun acc d => acc * b + d) 0 := by
  induction z with
  | zero => rfl
  | succ n ih => simpa [List.replicate_succ] using ih

theorem base58CharVal_one : base58CharVal '1' = some 0 := by decide

theorem base58CharVal_getD : ∀ d : Fin 58,
    base58CharVal (base58Alphabet.getD d.val '1') = some d.val := by decide

theorem base58_getD_ne_one : ∀ d : Fin 58, d.val ≠ 0 →
    (base58Alphabet.getD d.val '1' == '1') = false := by decide

theorem base58CharVals_append_replicate (z : Nat) (l : List Char) (vs : List Nat)
    (h : base58CharVals l = some vs) :
    base58CharVals (List.replicate z '1' ++ l) =
      some (List.replicate z 0 ++ vs) := by
  induction z with
  | zero => simpa using h
  | succ n ih =>
    simp only [List.replicate_succ, List.cons_append, base58CharVals,
      base58CharVal_one, List.append_eq, ih]

theorem base58CharVals_digits (ds : List Nat) (h : ∀ d ∈ ds, d < 58) :
    base58CharVals (ds.map (fun d => base58Alphabet.getD d '1')) = some ds := by
  induction ds with
  | nil => rfl
  | cons d t ih =>
    have hd : d < 58 := h d (List.mem_cons_self d t)
    have hv := base58CharVal_getD ⟨d, hd⟩
    simp only [List.map_cons, base58CharVals, hv,
      ih (fun x hx => h x (List.mem_cons_of_mem d hx))]

theorem base58Decode_eval (z : Nat) (ds : List Nat) (hds : ∀ d ∈ ds, d < 58)
    (hhead : ∀ d0, ds.head? = some d0 → d0 ≠ 0)
    (hzds : z ≠ 0 ∨ ds ≠ []) :
    base58Decode (String.mk (List.replicate z '1' ++
        ds.map (fun d => base58Alphabet.getD d '1'))) =
      Except.ok (List.replicate z 0 ++
        (toDigitsLE 256 (fromDigitsLE 58 ds.reverse)).reverse) := by
  have hvals : base58CharVals (List.replicate z '1' ++
      ds.map (fun d => base58Alphabet.getD d '1')) =
      some (List.replicate z 0 ++ ds) :=
    base58CharVals_append_replicate z _ ds (base58CharVals_digits ds hds)
  have hfold : (List.replicate z 0 ++ ds).foldl (fun acc d => acc * 58 + d) 0 =
      fromDigitsLE 58 ds.reverse := by
    rw [foldl_replicate_zero, foldl_mul_add]
    simp
  have hdata_ne : List.replicate z '1' ++
      ds.map (fun d => base58Alphabet.getD d '1') ≠ [] := by
    intro hc
    rw [List.append_eq_nil] at hc
    rcases hzds with hz | hds2
    · exact hz (by simpa using hc.1)
    · exact hds2 (by simpa using hc.2)
  have htake : ((List.replicate z '1' ++
      ds.map (fun d => base58Alphabet.getD d '1')).takeWhile (fun x => x == '1')) =
      List.replicate z '1' := by
    cases ds with
    | nil => simp [takeWhile_replicate_self (fun x => x == '1') z '1' rfl]
    | cons d0 t =>
      have hd0 : d0 ≠ 0 := hhead d0 rfl
      have hd0lt : d0 < 58 := hds d0 (List.mem_cons_self d0 t)
      have hc : (base58Alphabet.getD d0 '1' == '1') = false :=
        base58_getD_ne_one ⟨d0, hd0lt⟩ hd0
      simpa using takeWhile_replicate_append (fun x => x == '1') z '1'
        (base58Alphabet.getD d0 '1')
        (t.map (fun d => base58Alphabet.getD d '1')) rfl hc
  unfold base58Decode
  rw [show (String.mk (List.replicate z '1' ++
      ds.map (fun d => base58Alphabet.getD d '1'))).data =
      List.replicate z '1' ++ ds.map (fun d => base58Alphabet.getD d '1') from rfl]
  rw [if_neg hdata_ne, hvals]
  simp only [htake, List.length_replicate, hfold]

theorem base58_roundtrip_aux (z : Nat) (l2 : List Nat)
    (hmem2 : ∀ x ∈ l2, x < 256) (hhead2 : ∀ x, l2.head? = some x → x ≠ 0)
    (hne : z ≠ 0 ∨ l2 ≠ []) :
    base58Decode (base58Encode (List.replicate z 0 ++ l2)) =
      Except.ok (List.replicate z 0 ++ l2) := by
  have htake0 : ((List.replicate z 0 ++ l2).takeWhile (fun x => x == 0)) =
      List.replicate z 0 := by
    cases l2 with
    | nil => simp [takeWhile_replicate_self (fun x => x == 0) z 0 rfl]
    | cons x t =>
      have hx : x ≠ 0 := hhead2 x rfl
      have hpx : ((x == 0) : Bool) = false := by simp [hx]
      exact takeWhile_replicate_append (fun y => y == 0) z 0 x t rfl hpx
  have hfold0 : (List.replicate z 0 ++ l2).foldl (fun acc d => acc * 256 + d) 0 =
      fromDigitsLE 256 l2.reverse := by
    rw [foldl_replicate_zero, foldl_mul_add]
    simp
  have hencode : base58Encode (List.replicate z 0 ++ l2) =
      String.mk (List.replicate z '1' ++
        ((toDigitsLE 58 (fromDigitsLE 256 l2.reverse)).reverse.map
          (fun d => base58Alphabet.getD d '1'))) := by
    unfold base58Encode
    rw [htake0, List.length_replicate, hfold0]
  have hlast2 : l2.reverse.getLast? ≠ some 0 := by
    rw [List.getLast?_reverse]
    intro hc
    exact hhead2 0 hc rfl
  have hmem2r : ∀ x ∈ l2.reverse, x < 256 := fun x hx =>
    hmem2 x (List.mem_reverse.mp hx)
  have hds : ∀ d ∈ (toDigitsLE 58 (fromDigitsLE 256 l2.reverse)).reverse,
      d < 58 := fun d hd =>
    toDigits_mem_lt 58 (by omega) _ d (List.mem_reverse.mp hd)
  have hheadds : ∀ d0,
      (toDigitsLE 58 (fromDigitsLE 256 l2.reverse)).reverse.head? = some d0 →
      d0 ≠ 0 := by
    intro d0 hd0
    rw [List.head?_reverse] at hd0
    intro hc
    subst hc
    exact toDigits_getLast_ne_zero 58 (by omega) _ hd0
  have hor : z ≠ 0 ∨
      (toDigitsLE 58 (fromDigitsLE 256 l2.reverse)).reverse ≠ [] := by
    rcases hne with hz | hl2
    · exact Or.inl hz
    · refine Or.inr ?_
      intro hc
      rw [List.reverse_eq_nil_iff] at hc
      have hn0 : fromDigitsLE 256 l2.reverse = 0 :=
        (toDigits_eq_nil 58 (by omega) _).mp hc
      exact fromDigits_ne_zero 256 (by omega) l2.reverse
        (fun h => hl2 (List.reverse_eq_nil_iff.mp h)) hlast2 hn0
  rw [hencode, base58Decode_eval z _ hds hheadds hor, List.reverse_reverse,
    fromDigits_toDigits 58 (by omega),
    toDigits_fromDigits 256 (by omega) l2.reverse hmem2r hlast2,
    List.reverse_reverse]

theorem base58_roundtrip (l : List Nat) (hl : ∀ x ∈ l, x < 256) (hne : l ≠ []) :
    base58Decode (base58Encode l) = Except.ok l := by
  have hsplit : List.replicate ((l.takeWhile (fun x => x == 0)).length) 0 ++
      l.dropWhile (fun x => x == 0) = l := by
    conv_rhs =>
      rw [← List.takeWhile_append_dropWhile (p := fun x => x == 0) (l := l)]
    rw [← takeWhile_zero_replicate]
  have h2 : ∀ x ∈ l.dropWhile (fun x => x == 0), x < 256 := by
    intro x hx
    apply hl
    rw [← hsplit]
    exact List.mem_append_right _ hx
  have hh : ∀ x, (l.dropWhile (fun x => x == 0)).head? = some x → x ≠ 0 :=
    head?_dropWhile_ne_zero l
  have hor : (l.takeWhile (fun x => x == 0)).length ≠ 0 ∨
      l.dropWhile (fun x => x == 0) ≠ [] := by
    by_contra hc
    push_neg at hc
    apply hne
    rw [← hsplit, hc.1, hc.2]
    rfl
  have h := base58_roundtrip_aux _ _ h2 hh hor
  rw [hsplit] at h
  exact h

theorem mem_encodeBytesField_lt (f : Nat) (b : List Nat)
    (hb : ∀ x ∈ b, x < 256) : ∀ x ∈ encodeBytesField f b, x < 256 := by
  intro x hx
  rw [encodeBytesField] at hx
  by_cases h : b.length = 0
  · simp [h] at hx
  · rw [if_neg h] at hx
    simp only [List.append_assoc, List.mem_append] at hx
    rcases hx with hx | hx | hx
    · exact mem_encodeVarint_lt _ x hx
    · exact mem_encodeVarint_lt _ x hx
    · exact hb x hx

theorem mem_shareContactBinary_lt (pk seed : List Nat)
    (hpk : ∀ x ∈ pk, x < 256) (hseed : ∀ x ∈ seed, x < 256) :
    ∀ x ∈ shareContactBinary pk seed, x < 256 := by
  intro x hx
  rw [shareContactBinary, marshal_pk_seed, List.mem_append] at hx
  rcases hx with hx | hx
  · exact mem_encodeBytesField_lt 1 pk hpk x hx
  · exact mem_encodeBytesField_lt 2 seed hseed x hx

theorem shareContactBinary_ne_nil (pk seed : List Nat) (hpk : pk ≠ []) :
    shareContactBinary pk seed ≠ [] := by
  rw [shareContactBinary, marshal_pk_seed]
  intro h
  exact encodeBytesField_ne_nil 1 pk hpk (List.append_eq_nil.mp h).1

/-- C3: for every ShareableContact built by `shareContact` from an account
public key (non-empty, as account keys are) and a rendezvous seed, serializing
it with `proto.Marshal`, text-encoding with `base58.Encode`, then decoding as
`doClient2` does (`base58.Decode` followed by `proto.Unmarshal`) reproduces
the original public key bytes and rendezvous seed bytes exactly. -/
theorem c3_contact_token_roundtrip (accountPK seed : List Nat)
    (hpk : ∀ x ∈ accountPK, x < 256) (hseed : ∀ x ∈ seed, x < 256)
    (hne : accountPK ≠ []) :
    doClient2DecodeContact (base58Encode (shareContactBinary accountPK seed)) =
      Except.ok { pk := accountPK, publicRendezvousSeed := seed } := by
  unfold doClient2DecodeContact
  rw [base58_roundtrip _ (mem_shareContactBinary_lt accountPK seed hpk hseed)
    (shareContactBinary_ne_nil accountPK seed hne)]
  show unmarshalShareableContact (shareContactBinary accountPK seed) = _
  exact unmarshal_marshal accountPK seed hne

theorem c3_contact_token_roundtrip_witness :
    (∀ x ∈ ([1, 2] : List Nat), x < 256) ∧ (∀ x ∈ ([3] : List Nat), x < 256)
    ∧ ([1, 2] : List Nat) ≠ []
    ∧ doClient2DecodeContact (base58Encode (shareContactBinary [1, 2] [3])) =
        Except.ok { pk := [1, 2], publicRendezvousSeed := [3] } :=
  ⟨by decide, by decide, by decide,
    c3_contact_token_roundtrip [1, 2] [3] (by decide) (by decide) (by decide)⟩
